import Mathlib

/-!
Verification of the tokenofthanks ledger core: a shallow embedding of the
token-transfer route (src/routes/tokens.js), the reward-redemption route
(src/unnamed/part_003), the TokenTransaction / Reward models
(src/models/TokenTransaction.js) and the leaderboard aggregation
(src/routes/users.js), with theorems settling the spec claims.

Modelling conventions: MongoDB ObjectIds are `Nat`, JS numbers holding token
amounts are `Int` (the code never guards against negatives at the store
level), document collections are lists, and `doc.save()` writes the whole
in-memory document back by id. Timestamps are `Nat` ticks.
-/

/-! ## Data model (src/models/TokenTransaction.js) -/

/-- The `transactionType` enum of the tokenTransactionSchema. -/
inductive TransactionType
  | SEND
  | RECEIVE
  | PURCHASE
  | REDEEM
deriving DecidableEq, Repr

/-- The `status` enum of the tokenTransactionSchema. -/
inductive TransactionStatus
  | PENDING
  | COMPLETED
  | FAILED
deriving DecidableEq, Repr

/-- The metadata payload the redeem handler stores on a REDEEM transaction:
`{rewardId, rewardName, redemptionCode}` (src/unnamed/part_003 lines 122-126).
Other transaction types leave metadata at its default `{}`, modelled `none`. -/
structure RedeemMetadata where
  rewardId : Nat
  rewardName : String
  redemptionCode : Option String
deriving DecidableEq, Repr

/-- One document of the TokenTransaction collection. -/
structure TokenTransaction where
  id : Nat
  sender : Nat
  recipient : Nat
  amount : Int
  message : String
  transactionType : TransactionType
  status : TransactionStatus
  metadata : Option RedeemMetadata
  createdAt : Nat
deriving DecidableEq, Repr

/-- One document of the User collection, the fields the ledger touches:
`_id`, `email` (unique), `tokenBalance`. -/
structure User where
  id : Nat
  email : String
  tokenBalance : Int
deriving DecidableEq, Repr

/-- One document of the Reward collection, the fields redemption touches
(rewardSchema in src/models/TokenTransaction.js, second model). -/
structure Reward where
  id : Nat
  name : String
  tokenCost : Int
  stock : Int
  isActive : Bool
  redemptionCode : Option String
deriving DecidableEq, Repr

/-- The `.trim()` sanitizer of express-validator: strip leading and trailing
whitespace (executable model of String.trim over the character list). -/
def trimChars (l : List Char) : List Char :=
  (((l.dropWhile Char.isWhitespace).reverse).dropWhile Char.isWhitespace).reverse

/-- Trim of a string, via `trimChars`. -/
def trimStr (s : String) : String :=
  ⟨trimChars s.data⟩

/-- Modelled from the spec: the User model file (src/models/User.js) is not
under src/; §9 of the spec describes its balance mutation as "Read-then-write
balance mutation (load account, mutate field, save)", so `updateTokenBalance`
adds the delta to the in-memory document's field; the subsequent save writes
the whole document back. -/
def User.updateTokenBalance (u : User) (delta : Int) : User :=
  { u with tokenBalance := u.tokenBalance + delta }

/-- Method `rewardSchema.methods.canAfford` (line 157). -/
def Reward.canAfford (r : Reward) (userTokenBalance : Int) : Bool :=
  userTokenBalance >= r.tokenCost

/-- Method `rewardSchema.methods.redeem` (lines 162-168): decrement stock by 1 only
when `stock > 0`; the `-1` unlimited sentinel and `0` are left untouched. -/
def Reward.redeem (r : Reward) : Reward :=
  if r.stock > 0 then { r with stock := r.stock - 1 } else r

/-! ## Store primitives -/

/-- Lookup `User.findById`: first document with the id. -/
def findUserById (users : List User) (uid : Nat) : Option User :=
  users.find? (fun u => u.id == uid)

/-- Lookup `User.findOne({email})`: first document with the email (unique index). -/
def findUserByEmail (users : List User) (email : String) : Option User :=
  users.find? (fun u => u.email == email)

/-- Lookup `Reward.findById`. -/
def findRewardById (rewards : List Reward) (rid : Nat) : Option Reward :=
  rewards.find? (fun r => r.id == rid)

/-- Write-back `doc.save()` on a User: write the in-memory document back over every
stored document with its id (ids are unique in the store). -/
def saveUser (users : List User) (u : User) : List User :=
  users.map (fun v => if v.id == u.id then u else v)

/-- Write-back `doc.save()` on a Reward. -/
def saveReward (rewards : List Reward) (r : Reward) : List Reward :=
  rewards.map (fun s => if s.id == r.id then r else s)

/-- The shared store: user and reward collections, the append-only
transaction log, the clock used for `createdAt` defaults and the next
ObjectId to be allocated. -/
structure St where
  users : List User
  rewards : List Reward
  txns : List TokenTransaction
  now : Nat
  nextId : Nat
deriving DecidableEq, Repr

/-- Balance of an account as the store currently holds it. -/
def balanceOf (st : St) (uid : Nat) : Option Int :=
  (findUserById st.users uid).map (fun u => u.tokenBalance)

/-- Stock of a reward as the store currently holds it. -/
def stockOf (st : St) (rid : Nat) : Option Int :=
  (findRewardById st.rewards rid).map (fun r => r.stock)

/-! ## POST /api/tokens/send (src/routes/tokens.js lines 14-126) -/

/-- The error responses of the send handler, in source order. -/
inductive SendError
  | ValidationFailed
  | SenderNotFound
  | InsufficientFunds
  | RecipientNotFound
  | SelfTransfer
deriving DecidableEq, Repr

/-- The express-validator chain on the send route: `amount` an int ≥ 1,
`message` trimmed to length 1..500. (The `isEmail` format check is orthogonal
to every claim; emails are opaque strings here.) -/
def validSendInput (amount : Int) (message : String) : Bool :=
  amount >= 1 && (trimStr message).length >= 1 && (trimStr message).length <= 500

/-- The send handler, sequential run with every await succeeding
(src/routes/tokens.js lines 19-117). Checks occur in source order: sender
lookup, sender balance, recipient lookup, self-transfer; then the two
read-then-write balance saves and the single SEND transaction append.
Returns the new state, the reported `newBalance` and the stored row. -/
def sendTokens (st : St) (senderId : Nat) (recipientEmail : String)
    (amount : Int) (message : String) :
    Except SendError (St × Int × TokenTransaction) :=
  if !(validSendInput amount message) then .error .ValidationFailed
  else
    match findUserById st.users senderId with
    | none => .error .SenderNotFound
    | some sender =>
      if sender.tokenBalance < amount then .error .InsufficientFunds
      else
        match findUserByEmail st.users recipientEmail with
        | none => .error .RecipientNotFound
        | some recipient =>
          if senderId == recipient.id then .error .SelfTransfer
          else
            let sender2 := sender.updateTokenBalance (-amount)
            let recipient2 := recipient.updateTokenBalance amount
            let txn : TokenTransaction :=
              { id := st.nextId
                sender := senderId
                recipient := recipient.id
                amount := amount
                message := trimStr message
                transactionType := .SEND
                status := .COMPLETED
                metadata := none
                createdAt := st.now }
            .ok ({ st with
                    users := saveUser (saveUser st.users sender2) recipient2
                    txns := st.txns ++ [txn]
                    nextId := st.nextId + 1 },
                 sender2.tokenBalance, txn)

/-! ## POST /api/rewards/:id/redeem (src/unnamed/part_003 lines 62-146) -/

/-- The error responses of the redeem handler, in source order. -/
inductive RedeemError
  | RewardNotFound
  | RewardInactive
  | OutOfStock
  | UserNotFound
  | InsufficientFunds
deriving DecidableEq, Repr

/-- The redeem handler, sequential run with every await succeeding. Checks in
source order: reward lookup, isActive, `stock === 0`, user lookup, canAfford;
then balance debit, stock decrement, REDEEM transaction append. Returns the
new state, the reported `newBalance`, the redemption code and the stored row. -/
def redeem (st : St) (userId rewardId : Nat) :
    Except RedeemError (St × Int × Option String × TokenTransaction) :=
  match findRewardById st.rewards rewardId with
  | none => .error .RewardNotFound
  | some reward =>
    if !reward.isActive then .error .RewardInactive
    else if reward.stock == 0 then .error .OutOfStock
    else
      match findUserById st.users userId with
      | none => .error .UserNotFound
      | some user =>
        if !(reward.canAfford user.tokenBalance) then .error .InsufficientFunds
        else
          let user2 := user.updateTokenBalance (-reward.tokenCost)
          let reward2 := reward.redeem
          let txn : TokenTransaction :=
            { id := st.nextId
              sender := userId
              recipient := userId
              amount := -reward.tokenCost
              message := "Redeemed: " ++ reward.name
              transactionType := .REDEEM
              status := .COMPLETED
              metadata := some { rewardId := reward.id
                                 rewardName := reward.name
                                 redemptionCode := reward.redemptionCode }
              createdAt := st.now }
          .ok ({ st with
                  users := saveUser st.users user2
                  rewards := saveReward st.rewards reward2
                  txns := st.txns ++ [txn]
                  nextId := st.nextId + 1 },
               user2.tokenBalance, reward.redemptionCode, txn)

/-- The redeem handler's run in which `transaction.save()` (part_003 line 129)
throws after the balance debit (line 110) and the stock decrement (line 113)
have already been awaited: the catch block (lines 139-145) returns a 500 and
performs no compensation, so the observable store keeps the debit and the
decrement while the log gains no row. `none` when a validation branch exits
before any write. -/
def redeemTxnSaveFails (st : St) (userId rewardId : Nat) : Option St :=
  match findRewardById st.rewards rewardId with
  | none => none
  | some reward =>
    if !reward.isActive then none
    else if reward.stock == 0 then none
    else
      match findUserById st.users userId with
      | none => none
      | some user =>
        if !(reward.canAfford user.tokenBalance) then none
        else
          some { st with
                  users := saveUser st.users (user.updateTokenBalance (-reward.tokenCost))
                  rewards := saveReward st.rewards reward.redeem }

/-! ## Sequential operation sequences -/

/-- One core ledger call. -/
inductive Op
  | send (senderId : Nat) (recipientEmail : String) (amount : Int) (message : String)
  | redeemOp (userId rewardId : Nat)
deriving DecidableEq, Repr

/-- Apply one call sequentially; an error response leaves the store unchanged
(on the sequential path every write happens only after all checks pass). -/
def applyOp (st : St) : Op → St
  | .send s e a m =>
    match sendTokens st s e a m with
    | .ok (st2, _, _) => st2
    | .error _ => st
  | .redeemOp u r =>
    match redeem st u r with
    | .ok (st2, _, _, _) => st2
    | .error _ => st

/-- Apply a sequence of calls. -/
def applyOps (st : St) (ops : List Op) : St :=
  ops.foldl applyOp st

/-! ## Interleaved execution of concurrent send handlers

Each await in the send handler is a separate store round trip, so concurrent
requests interleave between the reads (findById / findOne, lines 36 and 52 of
src/routes/tokens.js) and the writes (the two updateTokenBalance saves and the
transaction save, lines 69-81). A thread is modelled with two atomic phases:
phase 0 performs the reads and all checks on the fetched snapshots; phase 1
writes the snapshot-derived documents back and appends the row. Grouping the
three writes into one phase only restricts the schedules considered; every
trace of this model is a trace of the finer one. -/

/-- The per-request state of one in-flight send handler. -/
structure SendThread where
  recipientEmail : String
  amount : Int
  message : String
  pc : Nat
  senderSnap : Option User
  recipSnap : Option User
  ok : Bool
deriving DecidableEq, Repr

/-- Run the next phase of one in-flight send request against the shared
store. Phase 0: fetch and check (snapshots captured); phase 1: write the
documents computed from the snapshots and append the SEND row. -/
def stepSend (st : St) (senderId : Nat) (th : SendThread) : St × SendThread :=
  match th.pc with
  | 0 =>
    if !(validSendInput th.amount th.message) then
      (st, { th with pc := 2, ok := false })
    else
      match findUserById st.users senderId with
      | none => (st, { th with pc := 2, ok := false })
      | some sender =>
        if sender.tokenBalance < th.amount then
          (st, { th with pc := 2, ok := false })
        else
          match findUserByEmail st.users th.recipientEmail with
          | none => (st, { th with pc := 2, ok := false })
          | some recipient =>
            if senderId == recipient.id then
              (st, { th with pc := 2, ok := false })
            else
              (st, { th with pc := 1,
                             senderSnap := some sender,
                             recipSnap := some recipient })
  | 1 =>
    match th.senderSnap, th.recipSnap with
    | some sender, some recipient =>
      let sender2 := sender.updateTokenBalance (-th.amount)
      let recipient2 := recipient.updateTokenBalance th.amount
      let txn : TokenTransaction :=
        { id := st.nextId
          sender := senderId
          recipient := recipient.id
          amount := th.amount
          message := trimStr th.message
          transactionType := .SEND
          status := .COMPLETED
          metadata := none
          createdAt := st.now }
      ({ st with
          users := saveUser (saveUser st.users sender2) recipient2
          txns := st.txns ++ [txn]
          nextId := st.nextId + 1 },
       { th with pc := 2, ok := true })
    | _, _ => (st, { th with pc := 2, ok := false })
  | _ => (st, th)

/-- Run a schedule: each entry names the thread whose next phase runs. -/
def runSchedule (senderId : Nat) : St → List SendThread → List Nat → St × List SendThread
  | st, ths, [] => (st, ths)
  | st, ths, i :: rest =>
    match ths.get? i with
    | none => runSchedule senderId st ths rest
    | some th =>
      let p := stepSend st senderId th
      runSchedule senderId p.1 (ths.set i p.2) rest

/-! ## Query layer

MongoDB leaves the relative order of documents with equal sort keys
unspecified. The embedding fixes one behaviour the store may exhibit: a
stable sort, so equal keys keep store order. The code requests no secondary
key (`.sort({createdAt: -1})` in getUserHistory, `$sort: {total: -1}` in the
leaderboard pipeline), so nothing in the source constrains ties further. -/

/-- Stable insertion: `x` goes in front of the first element it strictly
precedes, hence after every element it ties with. -/
def insertStable (before : α → α → Bool) (x : α) : List α → List α
  | [] => [x]
  | h :: rest => if before x h then x :: h :: rest else h :: insertStable before x rest

/-- Stable insertion sort. -/
def sortStable (before : α → α → Bool) (l : List α) : List α :=
  l.foldl (fun acc x => insertStable before x acc) []

/-- The `$or: [{sender}, {recipient}]` filter of
`tokenTransactionSchema.statics.getUserHistory` (lines 75-77). -/
def matchesUser (userId : Nat) (t : TokenTransaction) : Bool :=
  t.sender == userId || t.recipient == userId

/-- The `.sort({ createdAt: -1 })` key: strictly newer rows first. -/
def newerFirst (a b : TokenTransaction) : Bool :=
  a.createdAt > b.createdAt

/-- Static `getUserHistory(userId, limit, skip)` (src/models/TokenTransaction.js
lines 74-83): filter to rows where the user is sender or recipient, sort by
createdAt descending (no secondary key), then the store applies skip before
limit. -/
def getUserHistory (log : List TokenTransaction) (userId : Nat)
    (limit skip : Nat) : List TokenTransaction :=
  ((sortStable newerFirst (log.filter (matchesUser userId))).drop skip).take limit

/-- Stage `$group: {_id: key, total: {$sum: amount}}`: accumulate into the group of
the key, creating groups in first-encounter order. -/
def addToGroups (acc : List (Nat × Int)) (a : Nat) (v : Int) : List (Nat × Int) :=
  match acc with
  | [] => [(a, v)]
  | (b, s) :: rest => if b == a then (b, s + v) :: rest else (b, s) :: addToGroups rest a v

/-- Group the transactions by a key, summing amounts. -/
def groupTotals (key : TokenTransaction → Nat) (ts : List TokenTransaction) :
    List (Nat × Int) :=
  ts.foldl (fun acc t => addToGroups acc (key t) t.amount) []

/-- The `$sort: { total: -1 }` key: strictly larger sums first. -/
def higherTotal (p q : Nat × Int) : Bool :=
  p.2 > q.2

/-- GET /api/users/leaderboard (src/routes/users.js lines 99-147): for
`sent` (resp. `received`), match `transactionType: SEND`, group by sender
(resp. recipient) summing amount, sort by total descending (no secondary
key), limit. The `$lookup`/`$unwind`/`$project` stages only join user
display fields onto each entry and are dropped; entries are (accountId,
total). Any other `type` runs an empty pipeline, outside every claim. -/
def leaderboard (log : List TokenTransaction) (queryType : String)
    (limit : Nat) : List (Nat × Int) :=
  if queryType == "sent" then
    (sortStable higherTotal
      (groupTotals (fun t => t.sender)
        (log.filter (fun t => t.transactionType == .SEND)))).take limit
  else if queryType == "received" then
    (sortStable higherTotal
      (groupTotals (fun t => t.recipient)
        (log.filter (fun t => t.transactionType == .SEND)))).take limit
  else []

/-! ## Concrete stores used by the counterexamples and witnesses -/

/-- Two accounts, Alice (id 1, balance 10) and Bob (id 2, balance 5), and one
active reward (id 7, cost 5, stock 3). -/
def demoSt : St :=
  { users := [{ id := 1, email := "alice@x", tokenBalance := 10 },
              { id := 2, email := "bob@x", tokenBalance := 5 }]
    rewards := [{ id := 7, name := "Coffee", tokenCost := 5, stock := 3,
                  isActive := true, redemptionCode := some "COFFEE5" }]
    txns := []
    now := 0
    nextId := 0 }

/-- The store left behind when `transaction.save()` throws during
`redeem demoSt 1 7`. -/
def demoStAfterSaveFailure : St :=
  (redeemTxnSaveFails demoSt 1 7).getD demoSt

/-- Placeholder row (never reached: the demo transfer succeeds). -/
def demoTxnDummy : TokenTransaction :=
  { id := 0, sender := 0, recipient := 0, amount := 0, message := "",
    transactionType := .SEND, status := .COMPLETED, metadata := none,
    createdAt := 0 }

/-- The result of the successful transfer of 4 tokens from Alice to Bob. -/
def demoSendResult : St × Int × TokenTransaction :=
  (sendTokens demoSt 1 "bob@x" 4 "thank you").toOption.getD (demoSt, 0, demoTxnDummy)

/-- The store after the demo transfer. -/
def demoSendSt : St :=
  demoSendResult.1

/-- The row the demo transfer stored. -/
def demoSendTxn : TokenTransaction :=
  demoSendResult.2.2

/-- The result of the successful demo redemption: Alice redeems reward 7. -/
def demoRedeemResult : St × Int × Option String × TokenTransaction :=
  (redeem demoSt 1 7).toOption.getD (demoSt, 0, none, demoTxnDummy)

/-- One sender (id 0, balance 10) and three distinct recipients, each with
balance 0: the store of the spec's three-concurrent-transfers scenario. -/
def raceSt : St :=
  { users := [{ id := 0, email := "s@x", tokenBalance := 10 },
              { id := 1, email := "r1@x", tokenBalance := 0 },
              { id := 2, email := "r2@x", tokenBalance := 0 },
              { id := 3, email := "r3@x", tokenBalance := 0 }]
    rewards := []
    txns := []
    now := 0
    nextId := 0 }

/-- Three concurrent send requests of 4 tokens each from account 0. -/
def raceThreads : List SendThread :=
  [{ recipientEmail := "r1@x", amount := 4, message := "hi", pc := 0,
     senderSnap := none, recipSnap := none, ok := false },
   { recipientEmail := "r2@x", amount := 4, message := "hi", pc := 0,
     senderSnap := none, recipSnap := none, ok := false },
   { recipientEmail := "r3@x", amount := 4, message := "hi", pc := 0,
     senderSnap := none, recipSnap := none, ok := false }]

/-- Two rows for user 1 sharing one createdAt tick, stored in id order. -/
def tieTxnA : TokenTransaction :=
  { id := 1, sender := 1, recipient := 2, amount := 3, message := "a",
    transactionType := .SEND, status := .COMPLETED, metadata := none,
    createdAt := 100 }

/-- The later-id row of the createdAt tie. -/
def tieTxnB : TokenTransaction :=
  { id := 2, sender := 1, recipient := 3, amount := 3, message := "b",
    transactionType := .SEND, status := .COMPLETED, metadata := none,
    createdAt := 100 }

/-- A log holding the two tied rows in insertion order. -/
def tieLog : List TokenTransaction :=
  [tieTxnA, tieTxnB]

/-- Two SEND rows by different senders (ids 5 and 3) with equal amounts, the
higher-id sender stored first. -/
def lbLog : List TokenTransaction :=
  [{ id := 10, sender := 5, recipient := 9, amount := 3, message := "x",
     transactionType := .SEND, status := .COMPLETED, metadata := none,
     createdAt := 1 },
   { id := 11, sender := 3, recipient := 9, amount := 3, message := "y",
     transactionType := .SEND, status := .COMPLETED, metadata := none,
     createdAt := 2 }]

/-- Lookup of a group's running total, by account id. -/
def lookupTotal (l : List (Nat × Int)) (a : Nat) : Option Int :=
  (l.find? (fun p => p.1 == a)).map Prod.snd

/-- Running total of an account, zero when no group exists yet. -/
def totalIn (l : List (Nat × Int)) (a : Nat) : Int :=
  (lookupTotal l a).getD 0

/-- The account ids owning groups. -/
def keysOf (l : List (Nat × Int)) : List Nat :=
  l.map Prod.fst

/-- First-encounter key sequence: the keys not yet in `seen`, in the order of
their first occurrence. The `$group` stage creates its groups in exactly this
order, which is what the sort stage's tie behaviour preserves. -/
def newKeys (key : TokenTransaction → Nat) (seen : List Nat) :
    List TokenTransaction → List Nat
  | [] => []
  | t :: ts =>
    if key t ∈ seen then newKeys key seen ts
    else key t :: newKeys key (key t :: seen) ts

/-- All stored balances are non-negative. -/
def balancesNonneg (st : St) : Prop :=
  ∀ u ∈ st.users, 0 ≤ u.tokenBalance

/-- Every stored stock is the unlimited sentinel or non-negative. -/
def stocksOk (st : St) : Prop :=
  ∀ r ∈ st.rewards, r.stock = -1 ∨ 0 ≤ r.stock

/-- The interleaving of `raceThreads` in which all three requests pass their
checks before any write commits. -/
def raceSchedule : List Nat :=
  [0, 1, 2, 0, 1, 2]

/-- The serialized execution of the same three requests. -/
def serialSchedule : List Nat :=
  [0, 0, 1, 1, 2, 2]

/-! ## Inversion lemmas for the two handlers -/

/-- A successful send run pins down every intermediate value: the checks that
passed, the stored row, the reported balance and the whole output state. -/
theorem sendTokens_ok_inv (st : St) (s : Nat) (e : String) (a : Int) (m : String)
    (st2 : St) (nb : Int) (t : TokenTransaction)
    (h : sendTokens st s e a m = .ok (st2, nb, t)) :
    ∃ sender recipient : User,
      validSendInput a m = true ∧
      findUserById st.users s = some sender ∧
      a ≤ sender.tokenBalance ∧
      findUserByEmail st.users e = some recipient ∧
      s ≠ recipient.id ∧
      t = { id := st.nextId, sender := s, recipient := recipient.id, amount := a,
            message := trimStr m, transactionType := .SEND, status := .COMPLETED,
            metadata := none, createdAt := st.now } ∧
      nb = sender.tokenBalance - a ∧
      st2 = { st with
              users := saveUser (saveUser st.users (sender.updateTokenBalance (-a)))
                         (recipient.updateTokenBalance a)
              txns := st.txns ++ [t]
              nextId := st.nextId + 1 } := by
  unfold sendTokens at h
  split at h
  · exact absurd h (by simp)
  case isFalse hv =>
    rw [Bool.not_eq_true', Bool.not_eq_false] at hv
    split at h
    · exact absurd h (by simp)
    case h_2 sender hsender =>
      split at h
      · exact absurd h (by simp)
      case isFalse hbal =>
        split at h
        · exact absurd h (by simp)
        case h_2 recipient hrecipient =>
          split at h
          · exact absurd h (by simp)
          case isFalse hself =>
            simp only [Except.ok.injEq, Prod.mk.injEq] at h
            obtain ⟨hst, hnb, ht⟩ := h
            refine ⟨sender, recipient, hv, hsender, by omega,
                    hrecipient, by simpa using hself, ht.symm, ?_, ?_⟩
            · simp [← hnb, User.updateTokenBalance]; omega
            · rw [← hst, ← ht]

/-- A successful redeem run pins down every intermediate value. -/
theorem redeem_ok_inv (st : St) (u r : Nat) (st2 : St) (nb : Int)
    (code : Option String) (t : TokenTransaction)
    (h : redeem st u r = .ok (st2, nb, code, t)) :
    ∃ (reward : Reward) (user : User),
      findRewardById st.rewards r = some reward ∧
      reward.isActive = true ∧
      reward.stock ≠ 0 ∧
      findUserById st.users u = some user ∧
      reward.tokenCost ≤ user.tokenBalance ∧
      t = { id := st.nextId, sender := u, recipient := u,
            amount := -reward.tokenCost,
            message := "Redeemed: " ++ reward.name, transactionType := .REDEEM,
            status := .COMPLETED,
            metadata := some { rewardId := reward.id, rewardName := reward.name,
                               redemptionCode := reward.redemptionCode },
            createdAt := st.now } ∧
      nb = user.tokenBalance - reward.tokenCost ∧
      code = reward.redemptionCode ∧
      st2 = { st with
              users := saveUser st.users (user.updateTokenBalance (-reward.tokenCost))
              rewards := saveReward st.rewards reward.redeem
              txns := st.txns ++ [t]
              nextId := st.nextId + 1 } := by
  unfold redeem at h
  split at h
  · exact absurd h (by simp)
  case h_2 reward hreward =>
    split at h
    · exact absurd h (by simp)
    case isFalse hact =>
      rw [Bool.not_eq_true', Bool.not_eq_false] at hact
      split at h
      · exact absurd h (by simp)
      case isFalse hstock =>
        split at h
        · exact absurd h (by simp)
        case h_2 user huser =>
          split at h
          · exact absurd h (by simp)
          case isFalse hafford =>
            rw [Bool.not_eq_true', Bool.not_eq_false, Reward.canAfford] at hafford
            simp only [Except.ok.injEq, Prod.mk.injEq] at h
            obtain ⟨hst, hnb, hcode, ht⟩ := h
            refine ⟨reward, user, hreward, hact, by simpa using hstock, huser,
                    by simpa [ge_iff_le] using hafford, ht.symm, ?_, hcode.symm, ?_⟩
            · simp [← hnb, User.updateTokenBalance]; omega
            · rw [← hst, ← ht]

/-! ## Store lemmas -/

/-- Unfolding lemma: lookup in a cons store. -/
theorem findUserById_cons (x : User) (l : List User) (w : Nat) :
    findUserById (x :: l) w = if x.id = w then some x else findUserById l w := by
  by_cases h : x.id = w
  · simp only [findUserById, if_pos h]
    exact List.find?_cons_of_pos _ (by simpa using h)
  · simp only [findUserById, if_neg h]
    exact List.find?_cons_of_neg _ (by simpa using h)

/-- Unfolding lemma: save over a cons store. -/
theorem saveUser_cons (v : User) (rest : List User) (u : User) :
    saveUser (v :: rest) u = (if v.id = u.id then u else v) :: saveUser rest u := by
  by_cases h : v.id = u.id
  · simp [saveUser, h]
  · simp [saveUser, h]

/-- Writing a document back does not disturb lookups of other ids. -/
theorem findUserById_saveUser_ne (users : List User) (u : User) (w : Nat)
    (hw : w ≠ u.id) :
    findUserById (saveUser users u) w = findUserById users w := by
  induction users with
  | nil => rfl
  | cons v rest ih =>
    rw [saveUser_cons]
    by_cases hv : v.id = u.id
    · rw [if_pos hv, findUserById_cons, findUserById_cons,
          if_neg (by omega), if_neg (by omega)]
      exact ih
    · rw [if_neg hv, findUserById_cons, findUserById_cons]
      by_cases hvw : v.id = w
      · rw [if_pos hvw, if_pos hvw]
      · rw [if_neg hvw, if_neg hvw]
        exact ih

/-- Writing a document back makes its id resolve to it, provided some
document with that id was stored. -/
theorem findUserById_saveUser_self (users : List User) (u v : User)
    (hv : findUserById users u.id = some v) :
    findUserById (saveUser users u) u.id = some u := by
  induction users with
  | nil => simp [findUserById] at hv
  | cons w rest ih =>
    rw [saveUser_cons]
    by_cases hw : w.id = u.id
    · rw [if_pos hw, findUserById_cons, if_pos rfl]
    · rw [if_neg hw, findUserById_cons, if_neg hw]
      rw [findUserById_cons, if_neg hw] at hv
      exact ih hv

/-- Every document in the store after a save is the saved document or an
original one. -/
theorem mem_saveUser (users : List User) (u v : User)
    (hv : v ∈ saveUser users u) : v = u ∨ v ∈ users := by
  simp only [saveUser, List.mem_map] at hv
  obtain ⟨w, hw, heq⟩ := hv
  by_cases h : w.id = u.id
  · rw [if_pos (by simpa using h)] at heq
    exact Or.inl heq.symm
  · rw [if_neg (by simpa using h)] at heq
    exact Or.inr (heq ▸ hw)

/-- Unfolding lemma: reward lookup in a cons store. -/
theorem findRewardById_cons (x : Reward) (l : List Reward) (w : Nat) :
    findRewardById (x :: l) w = if x.id = w then some x else findRewardById l w := by
  by_cases h : x.id = w
  · simp only [findRewardById, if_pos h]
    exact List.find?_cons_of_pos _ (by simpa using h)
  · simp only [findRewardById, if_neg h]
    exact List.find?_cons_of_neg _ (by simpa using h)

/-- Unfolding lemma: reward save over a cons store. -/
theorem saveReward_cons (v : Reward) (rest : List Reward) (r : Reward) :
    saveReward (v :: rest) r = (if v.id = r.id then r else v) :: saveReward rest r := by
  by_cases h : v.id = r.id
  · simp [saveReward, h]
  · simp [saveReward, h]

/-- Reward analogue of `findUserById_saveUser_ne`. -/
theorem findRewardById_saveReward_ne (rewards : List Reward) (r : Reward) (w : Nat)
    (hw : w ≠ r.id) :
    findRewardById (saveReward rewards r) w = findRewardById rewards w := by
  induction rewards with
  | nil => rfl
  | cons v rest ih =>
    rw [saveReward_cons]
    by_cases hv : v.id = r.id
    · rw [if_pos hv, findRewardById_cons, findRewardById_cons,
          if_neg (by omega), if_neg (by omega)]
      exact ih
    · rw [if_neg hv, findRewardById_cons, findRewardById_cons]
      by_cases hvw : v.id = w
      · rw [if_pos hvw, if_pos hvw]
      · rw [if_neg hvw, if_neg hvw]
        exact ih

/-- Reward analogue of `findUserById_saveUser_self`. -/
theorem findRewardById_saveReward_self (rewards : List Reward) (r v : Reward)
    (hv : findRewardById rewards r.id = some v) :
    findRewardById (saveReward rewards r) r.id = some r := by
  induction rewards with
  | nil => simp [findRewardById] at hv
  | cons w rest ih =>
    rw [saveReward_cons]
    by_cases hw : w.id = r.id
    · rw [if_pos hw, findRewardById_cons, if_pos rfl]
    · rw [if_neg hw, findRewardById_cons, if_neg hw]
      rw [findRewardById_cons, if_neg hw] at hv
      exact ih hv

/-- Reward analogue of `mem_saveUser`. -/
theorem mem_saveReward (rewards : List Reward) (r v : Reward)
    (hv : v ∈ saveReward rewards r) : v = r ∨ v ∈ rewards := by
  simp only [saveReward, List.mem_map] at hv
  obtain ⟨w, hw, heq⟩ := hv
  by_cases h : w.id = r.id
  · rw [if_pos (by simpa using h)] at heq
    exact Or.inl heq.symm
  · rw [if_neg (by simpa using h)] at heq
    exact Or.inr (heq ▸ hw)

/-! ## Stable-sort lemmas -/

/-- Insertion adds exactly the inserted element to the members. -/
theorem mem_insertStable {α : Type} (b : α → α → Bool) (x y : α) (l : List α) :
    y ∈ insertStable b x l ↔ y = x ∨ y ∈ l := by
  induction l with
  | nil => simp [insertStable]
  | cons h rest ih =>
    simp only [insertStable]
    by_cases hbx : b x h = true
    · rw [if_pos hbx]
      simp [List.mem_cons]
    · rw [if_neg hbx]
      simp only [List.mem_cons, ih]
      tauto

/-- Folding insertions accumulates members. -/
theorem mem_foldl_insertStable {α : Type} (b : α → α → Bool) (y : α)
    (l acc : List α) :
    (y ∈ l.foldl (fun a x => insertStable b x a) acc) ↔ y ∈ acc ∨ y ∈ l := by
  induction l generalizing acc with
  | nil => simp
  | cons h rest ih =>
    simp only [List.foldl_cons]
    rw [ih, mem_insertStable]
    simp only [List.mem_cons]
    tauto

/-- The sorted list has the same members as its input. -/
theorem mem_sortStable {α : Type} (b : α → α → Bool) (y : α) (l : List α) :
    y ∈ sortStable b l ↔ y ∈ l := by
  rw [sortStable, mem_foldl_insertStable]
  simp

/-- Inserting into a list sorted under `fun p q => b q p = false` keeps it
sorted, provided `b` is asymmetric. -/
theorem chain'_insertStable {α : Type} (b : α → α → Bool)
    (hasym : ∀ x y, b x y = true → b y x = false) (x : α) (l : List α)
    (hl : List.Chain' (fun p q => b q p = false) l) :
    List.Chain' (fun p q => b q p = false) (insertStable b x l) := by
  induction l with
  | nil => simp [insertStable]
  | cons h rest ih =>
    simp only [insertStable]
    by_cases hbx : b x h = true
    · rw [if_pos hbx, List.chain'_cons]
      exact ⟨hasym x h hbx, hl⟩
    · rw [if_neg hbx]
      have hbx2 : b x h = false := Bool.not_eq_true _ ▸ hbx
      rw [List.chain'_cons'] at hl ⊢
      refine ⟨?_, ih hl.2⟩
      intro y hy
      cases rest with
      | nil =>
        simp [insertStable] at hy
        rw [← hy]
        exact hbx2
      | cons r rest2 =>
        simp only [insertStable] at hy
        by_cases hbr : b x r = true
        · rw [if_pos hbr] at hy
          simp only [List.head?_cons, Option.mem_some_iff] at hy
          rw [← hy]
          exact hbx2
        · rw [if_neg hbr] at hy
          simp only [List.head?_cons, Option.mem_some_iff] at hy
          exact hy ▸ hl.1 r (by simp)

/-- The stable sort is sorted: no later element strictly precedes an earlier
one. -/
theorem chain'_sortStable {α : Type} (b : α → α → Bool)
    (hasym : ∀ x y, b x y = true → b y x = false) (l : List α) :
    List.Chain' (fun p q => b q p = false) (sortStable b l) := by
  rw [sortStable]
  have main : ∀ (l acc : List α),
      List.Chain' (fun p q => b q p = false) acc →
      List.Chain' (fun p q => b q p = false)
        (l.foldl (fun a x => insertStable b x a) acc) := by
    intro l
    induction l with
    | nil => intro acc hacc; exact hacc
    | cons h rest ih =>
      intro acc hacc
      exact ih _ (chain'_insertStable b hasym h acc hacc)
  exact main l [] (by simp)

/-- The head of a prefix is the head of the list. -/
theorem head?_take {α : Type} {l : List α} {n : Nat} {y : α}
    (h : y ∈ (l.take n).head?) : y ∈ l.head? := by
  cases l with
  | nil => simp at h
  | cons a rest =>
    cases n with
    | zero => simp at h
    | succ m => simpa using h

/-- A prefix of a sorted list is sorted. -/
theorem chain'_take {α : Type} {R : α → α → Prop} (l : List α) (n : Nat)
    (h : List.Chain' R l) : List.Chain' R (l.take n) := by
  induction l generalizing n with
  | nil => simp
  | cons a rest ih =>
    cases n with
    | zero => simp
    | succ m =>
      rw [List.take_succ_cons]
      rw [List.chain'_cons'] at h ⊢
      exact ⟨fun y hy => h.1 y (head?_take hy), ih m h.2⟩

/-- A suffix of a sorted list is sorted. -/
theorem chain'_drop {α : Type} {R : α → α → Prop} (l : List α) (n : Nat)
    (h : List.Chain' R l) : List.Chain' R (l.drop n) := by
  induction n generalizing l with
  | zero => simpa
  | succ m ih =>
    cases l with
    | nil => simp
    | cons a rest =>
      rw [List.drop_succ_cons]
      exact ih rest h.tail

/-! ## Grouping lemmas -/

/-- Unfolding lemma: total lookup in a cons list. -/
theorem lookupTotal_cons (p : Nat × Int) (l : List (Nat × Int)) (a : Nat) :
    lookupTotal (p :: l) a = if p.1 = a then some p.2 else lookupTotal l a := by
  by_cases h : p.1 = a
  · simp only [lookupTotal, if_pos h]
    rw [List.find?_cons_of_pos _ (by simpa using h)]
    rfl
  · simp only [lookupTotal, if_neg h]
    rw [List.find?_cons_of_neg _ (by simpa using h)]

/-- Unfolding lemma: accumulating into a cons list of groups. -/
theorem addToGroups_cons (b : Nat) (s : Int) (rest : List (Nat × Int))
    (a : Nat) (v : Int) :
    addToGroups ((b, s) :: rest) a v =
      if b = a then (b, s + v) :: rest else (b, s) :: addToGroups rest a v := by
  simp only [addToGroups]
  by_cases h : b = a
  · rw [if_pos (by simpa using h), if_pos h]
  · rw [if_neg (by simpa using h), if_neg h]

/-- Accumulating `v` into account `a` raises exactly that account's total. -/
theorem totalIn_addToGroups (acc : List (Nat × Int)) (a : Nat) (v : Int) (c : Nat) :
    totalIn (addToGroups acc a v) c = totalIn acc c + (if c = a then v else 0) := by
  induction acc with
  | nil =>
    by_cases h : c = a
    · subst h
      simp [addToGroups, totalIn, lookupTotal]
    · simp [addToGroups, totalIn, lookupTotal, h, Ne.symm h]
  | cons p rest ih =>
    obtain ⟨b, s⟩ := p
    rw [addToGroups_cons]
    by_cases hba : b = a
    · rw [if_pos hba]
      simp only [totalIn, lookupTotal_cons]
      by_cases hbc : b = c
      · rw [if_pos hbc, if_pos hbc]
        have : c = a := by omega
        rw [if_pos this]
        simp
      · rw [if_neg hbc, if_neg hbc]
        have : ¬(c = a) := by omega
        rw [if_neg this]
        simp
    · rw [if_neg hba]
      simp only [totalIn, lookupTotal_cons]
      by_cases hbc : b = c
      · rw [if_pos hbc, if_pos hbc]
        have : ¬(c = a) := by omega
        rw [if_neg this]
        simp
      · rw [if_neg hbc, if_neg hbc]
        have := ih
        simp only [totalIn] at this
        rw [this]

/-- Accumulating creates at most the accumulated key. -/
theorem keysOf_addToGroups (acc : List (Nat × Int)) (a : Nat) (v : Int) (c : Nat)
    (hc : c ∈ keysOf (addToGroups acc a v)) : c = a ∨ c ∈ keysOf acc := by
  induction acc with
  | nil =>
    simp only [addToGroups, keysOf, List.map_cons, List.map_nil, List.mem_singleton] at hc
    exact Or.inl hc
  | cons p rest ih =>
    obtain ⟨b, s⟩ := p
    rw [addToGroups_cons] at hc
    by_cases hba : b = a
    · rw [if_pos hba] at hc
      simp only [keysOf, List.map_cons, List.mem_cons] at hc ⊢
      tauto
    · rw [if_neg hba] at hc
      simp only [keysOf, List.map_cons, List.mem_cons] at hc ⊢
      rcases hc with hc | hc
      · tauto
      · rcases ih hc with h | h
        · exact Or.inl h
        · exact Or.inr (Or.inr h)

/-- Accumulating keeps group keys distinct. -/
theorem keysOf_nodup_addToGroups (acc : List (Nat × Int)) (a : Nat) (v : Int)
    (h : (keysOf acc).Nodup) : (keysOf (addToGroups acc a v)).Nodup := by
  induction acc with
  | nil => simp [addToGroups, keysOf]
  | cons p rest ih =>
    obtain ⟨b, s⟩ := p
    rw [addToGroups_cons]
    simp only [keysOf, List.map_cons, List.nodup_cons] at h
    by_cases hba : b = a
    · rw [if_pos hba]
      simp only [keysOf, List.map_cons, List.nodup_cons]
      exact h
    · rw [if_neg hba]
      simp only [keysOf, List.map_cons, List.nodup_cons]
      refine ⟨?_, ih h.2⟩
      intro hmem
      rcases keysOf_addToGroups rest a v b hmem with hh | hh
      · exact hba hh
      · exact h.1 hh

/-- With distinct keys, membership determines the lookup. -/
theorem lookupTotal_of_mem (l : List (Nat × Int)) (p : Nat × Int)
    (hnd : (keysOf l).Nodup) (hp : p ∈ l) : lookupTotal l p.1 = some p.2 := by
  induction l with
  | nil => simp at hp
  | cons q rest ih =>
    rw [lookupTotal_cons]
    simp only [keysOf, List.map_cons, List.nodup_cons] at hnd
    rcases List.mem_cons.mp hp with hq | hq
    · rw [hq, if_pos rfl]
    · by_cases hqp : q.1 = p.1
      · exact absurd (hqp ▸ List.mem_map_of_mem Prod.fst hq) hnd.1
      · rw [if_neg hqp]
        exact ih hnd.2 hq

/-- Group keys of the aggregation are distinct. -/
theorem keysOf_nodup_groupTotals (key : TokenTransaction → Nat)
    (ts : List TokenTransaction) : (keysOf (groupTotals key ts)).Nodup := by
  rw [groupTotals]
  have main : ∀ (ts : List TokenTransaction) (acc : List (Nat × Int)),
      (keysOf acc).Nodup →
      (keysOf (ts.foldl (fun a t => addToGroups a (key t) t.amount) acc)).Nodup := by
    intro ts
    induction ts with
    | nil => intro acc hacc; exact hacc
    | cons t rest ih =>
      intro acc hacc
      exact ih _ (keysOf_nodup_addToGroups acc (key t) t.amount hacc)
  exact main ts [] (by simp [keysOf])

/-- The total of an account in the aggregation is the sum of the amounts of
its transactions. -/
theorem totalIn_groupTotals (key : TokenTransaction → Nat)
    (ts : List TokenTransaction) (c : Nat) :
    totalIn (groupTotals key ts) c =
      ((ts.filter (fun t => key t == c)).map TokenTransaction.amount).sum := by
  rw [groupTotals]
  have main : ∀ (ts : List TokenTransaction) (acc : List (Nat × Int)),
      totalIn (ts.foldl (fun a t => addToGroups a (key t) t.amount) acc) c =
        totalIn acc c + ((ts.filter (fun t => key t == c)).map TokenTransaction.amount).sum := by
    intro ts
    induction ts with
    | nil =>
      intro acc
      simp
    | cons t rest ih =>
      intro acc
      simp only [List.foldl_cons]
      rw [ih, totalIn_addToGroups]
      by_cases h : key t = c
      · rw [if_pos h.symm, List.filter_cons_of_pos (by simpa using h)]
        simp only [List.map_cons, List.sum_cons]
        ring
      · rw [if_neg (by omega), List.filter_cons_of_neg (by simpa using h)]
        ring
  rw [main ts []]
  simp [totalIn, lookupTotal]

/-- Each group the aggregation emits carries the exact per-account sum. -/
theorem mem_groupTotals_total (key : TokenTransaction → Nat)
    (ts : List TokenTransaction) (p : Nat × Int) (hp : p ∈ groupTotals key ts) :
    p.2 = ((ts.filter (fun t => key t == p.1)).map TokenTransaction.amount).sum := by
  have h1 := lookupTotal_of_mem _ p (keysOf_nodup_groupTotals key ts) hp
  have h2 := totalIn_groupTotals key ts p.1
  rw [totalIn, h1] at h2
  simpa using h2

/-! ## Permutation and stability of the stable sort -/

/-- Insertion permutes to a cons. -/
theorem perm_insertStable {α : Type} (b : α → α → Bool) (x : α) (l : List α) :
    (insertStable b x l).Perm (x :: l) := by
  induction l with
  | nil => simp [insertStable]
  | cons h rest ih =>
    simp only [insertStable]
    by_cases hb : b x h = true
    · rw [if_pos hb]
    · rw [if_neg hb]
      exact (List.Perm.cons h ih).trans (List.Perm.swap x h rest)

/-- Folded insertions permute to the input appended to the accumulator. -/
theorem perm_foldl_insertStable {α : Type} (b : α → α → Bool)
    (l acc : List α) :
    (l.foldl (fun a x => insertStable b x a) acc).Perm (l ++ acc) := by
  induction l generalizing acc with
  | nil => simp
  | cons h rest ih =>
    simp only [List.foldl_cons, List.cons_append]
    exact ((ih (insertStable b h acc)).trans
      (List.Perm.append_left rest (perm_insertStable b h acc))).trans
      List.perm_middle

/-- The stable sort is a permutation of its input. -/
theorem perm_sortStable {α : Type} (b : α → α → Bool) (l : List α) :
    (sortStable b l).Perm l := by
  have h := perm_foldl_insertStable b l []
  simpa [sortStable] using h

/-- In a list sorted under a key-based comparator, every element's key is
bounded by the head's key. -/
theorem key_le_of_chain {α K : Type} [LinearOrder K]
    (b : α → α → Bool) (key : α → K)
    (hb : ∀ x y, b x y = true ↔ key y < key x) :
    ∀ (h : α) (rest : List α),
      List.Chain' (fun p q => b q p = false) (h :: rest) →
      ∀ t ∈ rest, key t ≤ key h := by
  intro h rest
  induction rest generalizing h with
  | nil =>
    intro _ t ht
    simp at ht
  | cons r rest2 ih =>
    intro hsort t ht
    rw [List.chain'_cons] at hsort
    have hrh : key r ≤ key h := by
      by_contra hcon
      have := (hb r h).mpr (lt_of_not_le hcon)
      rw [hsort.1] at this
      exact Bool.false_ne_true this
    rcases List.mem_cons.mp ht with rfl | ht2
    · exact hrh
    · exact le_trans (ih r hsort.2 t ht2) hrh

/-- Stable insertion into a sorted list: a tied element lands after every
element already tied with it, so the tied sublist gains the new element at
its end and every other tied sublist is unchanged. -/
theorem filter_key_insertStable {α K : Type} [DecidableEq K] [LinearOrder K]
    (b : α → α → Bool) (key : α → K)
    (hb : ∀ x y, b x y = true ↔ key y < key x)
    (c : K) (x : α) :
    ∀ acc : List α,
      List.Chain' (fun p q => b q p = false) acc →
      (insertStable b x acc).filter (fun t => key t == c) =
        (if key x == c then acc.filter (fun t => key t == c) ++ [x]
         else acc.filter (fun t => key t == c)) := by
  intro acc
  induction acc with
  | nil =>
    intro _
    by_cases hxc : key x == c
    · rw [if_pos hxc]
      simp [insertStable, hxc]
    · rw [if_neg hxc]
      simp [insertStable, hxc]
  | cons h rest ih =>
    intro hsort
    simp only [insertStable]
    by_cases hbx : b x h = true
    · rw [if_pos hbx]
      have hxh : key h < key x := (hb x h).mp hbx
      by_cases hxc : key x == c
      · rw [if_pos hxc]
        have hc : key x = c := by simpa using hxc
        have hnil : (h :: rest).filter (fun t => key t == c) = [] := by
          rw [List.filter_eq_nil_iff]
          intro t ht
          have hle : key t ≤ key h := by
            rcases List.mem_cons.mp ht with rfl | ht2
            · exact le_refl _
            · exact key_le_of_chain b key hb h rest hsort t ht2
          simp only [beq_iff_eq]
          intro heq
          rw [← hc] at heq
          exact absurd (heq ▸ lt_of_le_of_lt hle hxh) (lt_irrefl _)
        rw [List.filter_cons, if_pos hxc, hnil]
        simp
      · rw [if_neg hxc]
        rw [List.filter_cons, if_neg hxc]
    · rw [if_neg hbx]
      have ihr := ih hsort.tail
      simp only [List.filter_cons, ihr]
      by_cases hhc : key h == c
      · by_cases hxc : key x == c
        · simp [hhc, hxc]
        · simp [hhc, hxc]
      · by_cases hxc : key x == c
        · simp [hhc, hxc]
        · simp [hhc, hxc]

/-- Stability of the stable sort: for every key value, the tied elements
appear in the output exactly as they appear in the input. -/
theorem filter_key_sortStable {α K : Type} [DecidableEq K] [LinearOrder K]
    (b : α → α → Bool) (key : α → K)
    (hb : ∀ x y, b x y = true ↔ key y < key x)
    (hasym : ∀ x y, b x y = true → b y x = false)
    (c : K) (l : List α) :
    (sortStable b l).filter (fun t => key t == c) =
      l.filter (fun t => key t == c) := by
  rw [sortStable]
  have main : ∀ (l acc : List α),
      List.Chain' (fun p q => b q p = false) acc →
      (l.foldl (fun a x => insertStable b x a) acc).filter (fun t => key t == c)
        = acc.filter (fun t => key t == c) ++ l.filter (fun t => key t == c) := by
    intro l
    induction l with
    | nil =>
      intro acc _
      simp
    | cons x rest ih =>
      intro acc hacc
      simp only [List.foldl_cons]
      rw [ih _ (chain'_insertStable b hasym x acc hacc),
          filter_key_insertStable b key hb c x acc hacc]
      by_cases hxc : key x == c
      · rw [if_pos hxc, List.filter_cons, if_pos hxc]
        simp
      · rw [if_neg hxc, List.filter_cons, if_neg hxc]
  have h := main l [] (by simp)
  simpa using h

/-- Comparator `newerFirst` orders by the createdAt key. -/
theorem newerFirst_key (x y : TokenTransaction) :
    newerFirst x y = true ↔ y.createdAt < x.createdAt := by
  simp [newerFirst]

/-- Comparator `higherTotal` orders by the total key. -/
theorem higherTotal_key (x y : Nat × Int) :
    higherTotal x y = true ↔ y.2 < x.2 := by
  simp [higherTotal]

/-- Accumulating a key either leaves the group-key list unchanged or appends
the new key at its end. -/
theorem keysOf_addToGroups_eq (acc : List (Nat × Int)) (a : Nat) (v : Int) :
    keysOf (addToGroups acc a v) =
      if a ∈ keysOf acc then keysOf acc else keysOf acc ++ [a] := by
  induction acc with
  | nil => simp [addToGroups, keysOf]
  | cons p rest ih =>
    obtain ⟨b, s⟩ := p
    rw [addToGroups_cons]
    by_cases hba : b = a
    · rw [if_pos hba]
      rw [if_pos (by simp [keysOf, hba.symm])]
      subst hba
      simp [keysOf]
    · rw [if_neg hba]
      simp only [keysOf, List.map_cons] at ih ⊢
      rw [ih]
      by_cases hmem : a ∈ rest.map Prod.fst
      · rw [if_pos hmem, if_pos (List.mem_cons.mpr (Or.inr hmem))]
      · rw [if_neg hmem]
        rw [if_neg (by
          intro hc
          rcases List.mem_cons.mp hc with h | h
          · exact hba h.symm
          · exact hmem h)]
        simp

/-- The first-encounter sequence depends on `seen` only through membership. -/
theorem newKeys_congr (key : TokenTransaction → Nat) :
    ∀ (ts : List TokenTransaction) (s1 s2 : List Nat),
      (∀ k, k ∈ s1 ↔ k ∈ s2) → newKeys key s1 ts = newKeys key s2 ts := by
  intro ts
  induction ts with
  | nil =>
    intro s1 s2 _
    rfl
  | cons t rest ih =>
    intro s1 s2 hiff
    simp only [newKeys]
    by_cases hmem : key t ∈ s1
    · rw [if_pos hmem, if_pos ((hiff _).mp hmem)]
      exact ih s1 s2 hiff
    · rw [if_neg hmem, if_neg (fun hc => hmem ((hiff _).mpr hc))]
      refine congrArg _ (ih _ _ ?_)
      intro k
      simp only [List.mem_cons]
      exact or_congr Iff.rfl (hiff k)

/-- The fold's group keys extend the accumulator's keys with the
first-encounter sequence of the remaining transactions. -/
theorem keysOf_foldl_addToGroups (key : TokenTransaction → Nat) :
    ∀ (ts : List TokenTransaction) (acc : List (Nat × Int)),
      keysOf (ts.foldl (fun a t => addToGroups a (key t) t.amount) acc) =
        keysOf acc ++ newKeys key (keysOf acc) ts := by
  intro ts
  induction ts with
  | nil =>
    intro acc
    simp [newKeys]
  | cons t rest ih =>
    intro acc
    simp only [List.foldl_cons, newKeys]
    rw [ih, keysOf_addToGroups_eq]
    by_cases hmem : key t ∈ keysOf acc
    · rw [if_pos hmem, if_pos hmem]
    · rw [if_neg hmem, if_neg hmem]
      rw [newKeys_congr key rest (keysOf acc ++ [key t]) (key t :: keysOf acc)
        (by intro k; simp [List.mem_append, List.mem_cons, or_comm])]
      simp

/-- The `$group` stage emits its group keys in first-encounter order. -/
theorem keysOf_groupTotals_newKeys (key : TokenTransaction → Nat)
    (ts : List TokenTransaction) :
    keysOf (groupTotals key ts) = newKeys key [] ts := by
  rw [groupTotals, keysOf_foldl_addToGroups]
  simp [keysOf]

/-- Membership in the first-encounter sequence. -/
theorem mem_newKeys (key : TokenTransaction → Nat) :
    ∀ (ts : List TokenTransaction) (seen : List Nat) (a : Nat),
      a ∈ newKeys key seen ts ↔ (a ∈ ts.map key ∧ a ∉ seen) := by
  intro ts
  induction ts with
  | nil =>
    intro seen a
    simp [newKeys]
  | cons t rest ih =>
    intro seen a
    simp only [newKeys, List.map_cons]
    by_cases hmem : key t ∈ seen
    · rw [if_pos hmem, ih]
      constructor
      · rintro ⟨h1, h2⟩
        exact ⟨List.mem_cons.mpr (Or.inr h1), h2⟩
      · rintro ⟨h1, h2⟩
        rcases List.mem_cons.mp h1 with rfl | h1
        · exact absurd hmem h2
        · exact ⟨h1, h2⟩
    · rw [if_neg hmem, List.mem_cons, ih]
      constructor
      · rintro (rfl | ⟨h1, h2⟩)
        · exact ⟨List.mem_cons.mpr (Or.inl rfl), hmem⟩
        · exact ⟨List.mem_cons.mpr (Or.inr h1),
                 fun hc => h2 (List.mem_cons.mpr (Or.inr hc))⟩
      · rintro ⟨h1, h2⟩
        rcases List.mem_cons.mp h1 with rfl | h1
        · exact Or.inl rfl
        · by_cases hak : a = key t
          · exact Or.inl hak
          · exact Or.inr ⟨h1,
              fun hc => (List.mem_cons.mp hc).elim hak h2⟩

/-- An account owns a group exactly when it appears as a key. -/
theorem mem_keysOf_groupTotals (key : TokenTransaction → Nat)
    (ts : List TokenTransaction) (a : Nat) :
    a ∈ keysOf (groupTotals key ts) ↔ a ∈ ts.map key := by
  rw [keysOf_groupTotals_newKeys, mem_newKeys]
  simp

/-! ## Claim theorems -/

/-- Claim C1: the claim says the redeem handler commits the balance debit,
the stock decrement and the REDEEM append as one atomic unit, with no partial
state observable on any failure. The handler (src/unnamed/part_003 lines
109-129) issues three separate awaits with no transactional scope and its
catch block performs no compensation, so the run in which `transaction.save()`
throws after the first two awaits leaves the debit and the decrement
observable with no appended row. Evaluated at a concrete store: Alice holds
10 tokens and the reward has stock 3 before; after the failed run the store
holds balance 5, stock 2 and an empty transaction log. -/
theorem C1_redeem_not_atomic :
    balanceOf demoSt 1 = some 10 ∧ stockOf demoSt 7 = some 3 ∧
    demoSt.txns = [] ∧
    redeemTxnSaveFails demoSt 1 7 = some demoStAfterSaveFailure ∧
    balanceOf demoStAfterSaveFailure 1 = some 5 ∧
    stockOf demoStAfterSaveFailure 7 = some 2 ∧
    demoStAfterSaveFailure.txns = [] :=
  ⟨rfl, rfl, rfl, rfl, rfl, rfl, rfl⟩

/-- Claim C2: the claim says three concurrent transfers of 4 from a balance
of 10 always end with exactly two successes, one InsufficientFunds failure
and final balance 2, each debit being an atomic conditional update. The
handler instead re-reads and re-writes the balance across separate round
trips (src/routes/tokens.js lines 36, 44, 69), so under the interleaving in
which all three requests pass the balance check before any write commits,
all three succeed and two debits are lost: the final balance is 6, not 2.
The serialized interleaving of the same requests does match the claimed
outcome, showing the result is schedule-dependent. -/
theorem C2_transfer_race :
    ((runSchedule 0 raceSt raceThreads raceSchedule).2.map SendThread.ok
        = [true, true, true] ∧
      balanceOf (runSchedule 0 raceSt raceThreads raceSchedule).1 0 = some 6) ∧
    ((runSchedule 0 raceSt raceThreads serialSchedule).2.map SendThread.ok
        = [true, true, false] ∧
      balanceOf (runSchedule 0 raceSt raceThreads serialSchedule).1 0 = some 2) := by
  exact ⟨⟨by decide, by decide⟩, ⟨by decide, by decide⟩⟩

/-- One sequential call preserves non-negative balances: both handlers check
the debited account's balance against the debit before writing. -/
theorem applyOp_nonneg (st : St) (op : Op) (h : balancesNonneg st) :
    balancesNonneg (applyOp st op) := by
  cases op with
  | send s e a m =>
    simp only [applyOp]
    cases hrun : sendTokens st s e a m with
    | error err => exact h
    | ok res =>
      obtain ⟨st2, nb, t⟩ := res
      obtain ⟨sender, recipient, hv, hs, hbal, hr, hself, ht, hnb, hst⟩ :=
        sendTokens_ok_inv st s e a m st2 nb t hrun
      subst hst
      intro u hu
      rcases mem_saveUser _ _ _ hu with rfl | hu2
      · have hrmem : recipient ∈ st.users := List.mem_of_find?_eq_some hr
        have hrb := h recipient hrmem
        have hamount : (1 : Int) ≤ a := by
          simp only [validSendInput, Bool.and_eq_true, decide_eq_true_eq,
            ge_iff_le] at hv
          exact hv.1.1
        simp only [User.updateTokenBalance]
        omega
      rcases mem_saveUser _ _ _ hu2 with rfl | hu3
      · simp only [User.updateTokenBalance]
        omega
      · exact h u hu3
  | redeemOp uid rid =>
    simp only [applyOp]
    cases hrun : redeem st uid rid with
    | error err => exact h
    | ok res =>
      obtain ⟨st2, nb, code, t⟩ := res
      obtain ⟨reward, user, hrw, hact, hstock, hu, hafford, ht, hnb, hcode, hst⟩ :=
        redeem_ok_inv st uid rid st2 nb code t hrun
      subst hst
      intro u hu2
      rcases mem_saveUser _ _ _ hu2 with rfl | hu3
      · simp only [User.updateTokenBalance]
        omega
      · exact h u hu3

/-- Claim C3: every balance stays a non-negative integer across every
sequence of transfer and redeem calls, because the send handler rejects
`sender.tokenBalance < amount` before debiting and the redeem handler
rejects `!canAfford` before debiting, and sequential error paths leave the
store untouched. -/
theorem C3_balances_nonneg (st : St) (ops : List Op) (h : balancesNonneg st) :
    balancesNonneg (applyOps st ops) := by
  induction ops generalizing st with
  | nil => exact h
  | cons op rest ih => exact ih _ (applyOp_nonneg st op h)

/-- Witness for C3 at a concrete store and call sequence. -/
theorem C3_witness :
    balancesNonneg (applyOps demoSt
      [Op.send 1 "bob@x" 4 "thanks", Op.redeemOp 2 7, Op.send 2 "alice@x" 9 "back"]) :=
  C3_balances_nonneg demoSt _ (by unfold balancesNonneg; decide)

/-- Method `Reward.redeem` preserves the stock invariant of a single document. -/
theorem Reward.redeem_stock_ok (r : Reward) (h : r.stock = -1 ∨ 0 ≤ r.stock) :
    r.redeem.stock = -1 ∨ 0 ≤ r.redeem.stock := by
  rw [Reward.redeem]
  by_cases hs : r.stock > 0
  · rw [if_pos hs]
    right
    simp only []
    omega
  · rw [if_neg hs]
    exact h

/-- One sequential call preserves the stock invariant. -/
theorem applyOp_stocksOk (st : St) (op : Op) (h : stocksOk st) :
    stocksOk (applyOp st op) := by
  cases op with
  | send s e a m =>
    simp only [applyOp]
    cases hrun : sendTokens st s e a m with
    | error err => exact h
    | ok res =>
      obtain ⟨st2, nb, t⟩ := res
      obtain ⟨sender, recipient, hv, hs, hbal, hr, hself, ht, hnb, hst⟩ :=
        sendTokens_ok_inv st s e a m st2 nb t hrun
      subst hst
      exact h
  | redeemOp uid rid =>
    simp only [applyOp]
    cases hrun : redeem st uid rid with
    | error err => exact h
    | ok res =>
      obtain ⟨st2, nb, code, t⟩ := res
      obtain ⟨reward, user, hrw, hact, hstock, hu, hafford, ht, hnb, hcode, hst⟩ :=
        redeem_ok_inv st uid rid st2 nb code t hrun
      subst hst
      intro v hv2
      rcases mem_saveReward _ _ _ hv2 with rfl | hv3
      · exact Reward.redeem_stock_ok reward
          (h reward (List.mem_of_find?_eq_some hrw))
      · exact h v hv3

/-- Claim C4: across every call sequence each stock stays `-1` or
non-negative; a successful redemption leaves an unlimited (`-1`) stock
untouched and decrements a finite stock by exactly 1 (the handler rejects
`stock === 0` first, and `Reward.redeem` only decrements when `stock > 0`). -/
theorem C4_stock_invariant (st : St) (h : stocksOk st) :
    (∀ ops, stocksOk (applyOps st ops)) ∧
    (∀ uid rid st2 nb code t r,
      findRewardById st.rewards rid = some r →
      redeem st uid rid = .ok (st2, nb, code, t) →
      (r.stock = -1 → stockOf st2 rid = some (-1)) ∧
      (0 ≤ r.stock → stockOf st2 rid = some (r.stock - 1))) := by
  constructor
  · intro ops
    induction ops generalizing st with
    | nil => exact h
    | cons op rest ih => exact ih _ (applyOp_stocksOk st op h)
  · intro uid rid st2 nb code t r hfind hrun
    obtain ⟨reward, user, hrw, hact, hstock, hu, hafford, ht, hnb, hcode, hst⟩ :=
      redeem_ok_inv st uid rid st2 nb code t hrun
    have hrr : r = reward := by
      rw [hfind] at hrw
      exact Option.some.inj hrw.symm |>.symm
    subst hrr
    have hid : r.id = rid := by
      have := List.find?_some hrw
      simpa using this
    have hid2 : r.redeem.id = rid := by
      rw [Reward.redeem]
      by_cases hs : r.stock > 0
      · rw [if_pos hs]; exact hid
      · rw [if_neg hs]; exact hid
    have hsave : findRewardById (saveReward st.rewards r.redeem) rid = some r.redeem := by
      have := findRewardById_saveReward_self st.rewards r.redeem r (by rw [hid2]; exact hrw)
      rw [hid2] at this
      exact this
    constructor
    · intro hunlim
      subst hst
      simp only [stockOf, hsave, Option.map_some]
      rw [Reward.redeem, if_neg (by omega)]
      simp [hunlim]
    · intro hfin
      subst hst
      simp only [stockOf, hsave, Option.map_some]
      rw [Reward.redeem, if_pos (by omega)]
      rfl

/-- Witness for C4: the invariant holds after a concrete redemption. -/
theorem C4_witness :
    stocksOk (applyOps demoSt [Op.redeemOp 1 7, Op.redeemOp 2 7]) :=
  (C4_stock_invariant demoSt (by unfold stocksOk; decide)).1 _

/-- With distinct ids, a stored document is exactly what its id resolves to. -/
theorem findUserById_eq_of_nodup (users : List User) (u : User)
    (hnd : (users.map User.id).Nodup) (hu : u ∈ users) :
    findUserById users u.id = some u := by
  induction users with
  | nil => simp at hu
  | cons v rest ih =>
    rw [findUserById_cons]
    simp only [List.map_cons, List.nodup_cons] at hnd
    rcases List.mem_cons.mp hu with rfl | hu2
    · rw [if_pos rfl]
    · by_cases hv : v.id = u.id
      · exact absurd (List.mem_map_of_mem User.id hu2) (hv ▸ hnd.1)
      · rw [if_neg hv]
        exact ih hnd.2 hu2

/-- Claim C5: a successful transfer of `a` from the sender to the recipient
debits the sender by exactly `a`, credits the recipient by exactly `a`, and
appends exactly one COMPLETED SEND row from the sender's perspective; no
mirrored RECEIVE row is written (the RECEIVE rows of the log are unchanged). -/
theorem C5_conservation (st : St) (sid : Nat) (email : String) (a : Int)
    (m : String) (st2 : St) (nb : Int) (t : TokenTransaction) (sbal rbal : Int)
    (hids : (st.users.map User.id).Nodup)
    (hrun : sendTokens st sid email a m = .ok (st2, nb, t))
    (hs : balanceOf st sid = some sbal)
    (hr : balanceOf st t.recipient = some rbal) :
    balanceOf st2 sid = some (sbal - a) ∧
    balanceOf st2 t.recipient = some (rbal + a) ∧
    st2.txns = st.txns ++ [t] ∧
    t.transactionType = .SEND ∧ t.status = .COMPLETED ∧
    t.amount = a ∧ t.sender = sid ∧ t.recipient ≠ sid ∧
    (st2.txns.filter (fun x => x.transactionType == TransactionType.RECEIVE))
      = (st.txns.filter (fun x => x.transactionType == TransactionType.RECEIVE)) := by
  obtain ⟨sender, recipient, hv, hsf, hbal, hrf, hself, ht, hnb, hst⟩ :=
    sendTokens_ok_inv st sid email a m st2 nb t hrun
  have htr : t.recipient = recipient.id := by rw [ht]
  have hts : t.sender = sid := by rw [ht]
  have hsbal : sbal = sender.tokenBalance := by
    rw [balanceOf, hsf] at hs
    simpa using hs.symm
  have hrmem : recipient ∈ st.users := List.mem_of_find?_eq_some hrf
  have hrid : findUserById st.users recipient.id = some recipient :=
    findUserById_eq_of_nodup st.users recipient hids hrmem
  have hrbal : rbal = recipient.tokenBalance := by
    rw [balanceOf, htr, hrid] at hr
    simpa using hr.symm
  have hsid : (sender.updateTokenBalance (-a)).id = sid := by
    have := List.find?_some hsf
    simp only [User.updateTokenBalance] at this ⊢
    simpa using this
  have hrid2 : (recipient.updateTokenBalance a).id = recipient.id := by
    simp [User.updateTokenBalance]
  refine ⟨?_, ?_, ?_, ?_, ?_, ?_, hts, ?_, ?_⟩
  · subst hst
    simp only [balanceOf]
    rw [findUserById_saveUser_ne _ _ _ (by rw [hrid2]; omega)]
    have hexists : findUserById st.users (sender.updateTokenBalance (-a)).id
        = some sender := by rw [hsid]; exact hsf
    rw [← hsid, findUserById_saveUser_self _ _ _ hexists]
    simp [User.updateTokenBalance]
    omega
  · subst hst
    simp only [balanceOf, htr]
    have hne : findUserById (saveUser st.users (sender.updateTokenBalance (-a)))
        recipient.id = some recipient := by
      rw [findUserById_saveUser_ne _ _ _ (by rw [hsid]; omega)]
      exact hrid
    have hexists : findUserById (saveUser st.users (sender.updateTokenBalance (-a)))
        (recipient.updateTokenBalance a).id = some recipient := by
      rw [hrid2]; exact hne
    rw [← hrid2, findUserById_saveUser_self _ _ _ hexists]
    simp [User.updateTokenBalance]
    omega
  · subst hst; rfl
  · rw [ht]
  · rw [ht]
  · rw [ht]
  · rw [htr]; omega
  · subst hst
    simp only [List.filter_append]
    rw [ht]
    simp

/-- Witness for C5: the demo transfer of 4 from Alice (balance 10) to Bob
(balance 5). -/
theorem C5_witness :
    balanceOf demoSendSt 1 = some (10 - 4) ∧
    balanceOf demoSendSt demoSendTxn.recipient = some (5 + 4) ∧
    demoSendSt.txns = demoSt.txns ++ [demoSendTxn] ∧
    demoSendTxn.transactionType = .SEND ∧ demoSendTxn.status = .COMPLETED ∧
    demoSendTxn.amount = 4 ∧ demoSendTxn.sender = 1 ∧
    demoSendTxn.recipient ≠ 1 ∧
    (demoSendSt.txns.filter (fun x => x.transactionType == TransactionType.RECEIVE))
      = (demoSt.txns.filter (fun x => x.transactionType == TransactionType.RECEIVE)) :=
  C5_conservation demoSt 1 "bob@x" 4 "thank you" demoSendSt 6 demoSendTxn 10 5
    (by decide) rfl rfl rfl

/-- Claim C6 counterexample: Alice (id 1, email alice@x, balance 10) sends 15
to her own email. The claim says the call fails with InvalidSelfTransfer
regardless of balance, but the handler checks `sender.tokenBalance < amount`
(line 44) before the self check (line 61), so it fails with
InsufficientFunds instead. -/
theorem C6_counterexample :
    findUserById demoSt.users 1
        = some { id := 1, email := "alice@x", tokenBalance := 10 } ∧
    sendTokens demoSt 1 "alice@x" 15 "msg" = .error .InsufficientFunds ∧
    SendError.InsufficientFunds ≠ SendError.SelfTransfer :=
  ⟨rfl, rfl, by decide⟩

/-- Claim C6 (amended): a self-transfer fails with SelfTransfer only when the
sender's balance covers the amount; when the balance is short the handler
reports InsufficientFunds first, because the balance check precedes the
self-transfer check. -/
theorem C6_self_transfer_order (st : St) (sid : Nat) (email : String) (a : Int)
    (m : String) (sender : User)
    (hv : validSendInput a m = true)
    (hs : findUserById st.users sid = some sender) :
    (sender.tokenBalance < a →
      sendTokens st sid email a m = .error .InsufficientFunds) ∧
    (a ≤ sender.tokenBalance →
      ∀ recipient, findUserByEmail st.users email = some recipient →
        recipient.id = sid →
        sendTokens st sid email a m = .error .SelfTransfer) := by
  constructor
  · intro hlt
    unfold sendTokens
    rw [hv]
    rw [if_neg (by simp)]
    rw [hs]
    dsimp only
    rw [if_pos hlt]
  · intro hge recipient hrf hrid
    unfold sendTokens
    rw [hv]
    rw [if_neg (by simp)]
    rw [hs]
    dsimp only
    rw [if_neg (by omega)]
    rw [hrf]
    dsimp only
    rw [if_pos (by simp [hrid])]

/-- Witness for C6: both amended branches at the concrete store. -/
theorem C6_witness :
    sendTokens demoSt 1 "alice@x" 15 "mm" = .error .InsufficientFunds ∧
    sendTokens demoSt 1 "alice@x" 5 "mm" = .error .SelfTransfer :=
  ⟨(C6_self_transfer_order demoSt 1 "alice@x" 15 "mm"
      { id := 1, email := "alice@x", tokenBalance := 10 } (by decide) rfl).1
      (by decide),
   (C6_self_transfer_order demoSt 1 "alice@x" 5 "mm"
      { id := 1, email := "alice@x", tokenBalance := 10 } (by decide) rfl).2
      (by decide) { id := 1, email := "alice@x", tokenBalance := 10 } rfl rfl⟩

/-- Claim C7 counterexample: no user has email ghost@x, yet a transfer of 15
from Alice (balance 10) to that address fails with InsufficientFunds, not
RecipientNotFound: the balance check (line 44) runs before the recipient
lookup (line 52), so the recipient is not resolved before all preconditions. -/
theorem C7_counterexample :
    findUserByEmail demoSt.users "ghost@x" = none ∧
    sendTokens demoSt 1 "ghost@x" 15 "msg" = .error .InsufficientFunds ∧
    SendError.InsufficientFunds ≠ SendError.RecipientNotFound :=
  ⟨rfl, rfl, by decide⟩

/-- Claim C7 (amended): the sender's balance is checked before the recipient
is resolved; a transfer to an absent email reports RecipientNotFound only
when the balance covers the amount, and InsufficientFunds otherwise. -/
theorem C7_recipient_resolution_order (st : St) (sid : Nat) (email : String)
    (a : Int) (m : String) (sender : User)
    (hv : validSendInput a m = true)
    (hs : findUserById st.users sid = some sender)
    (hre : findUserByEmail st.users email = none) :
    sendTokens st sid email a m =
      (if sender.tokenBalance < a then .error .InsufficientFunds
       else .error .RecipientNotFound) := by
  unfold sendTokens
  rw [hv]
  rw [if_neg (by simp)]
  rw [hs]
  dsimp only
  by_cases hlt : sender.tokenBalance < a
  · rw [if_pos hlt, if_pos hlt]
  · rw [if_neg hlt, if_neg hlt, hre]

/-- Witness for C7: both branches at the concrete store. -/
theorem C7_witness :
    sendTokens demoSt 1 "ghost@x" 15 "mm" = .error .InsufficientFunds ∧
    sendTokens demoSt 1 "ghost@x" 5 "mm" = .error .RecipientNotFound := by
  constructor
  · have h := C7_recipient_resolution_order demoSt 1 "ghost@x" 15 "mm"
      { id := 1, email := "alice@x", tokenBalance := 10 } (by decide) rfl rfl
    rw [if_pos (by decide)] at h
    exact h
  · have h := C7_recipient_resolution_order demoSt 1 "ghost@x" 5 "mm"
      { id := 1, email := "alice@x", tokenBalance := 10 } (by decide) rfl rfl
    rw [if_neg (by decide)] at h
    exact h

/-- Comparator `newerFirst` is asymmetric. -/
theorem newerFirst_asymm (x y : TokenTransaction)
    (h : newerFirst x y = true) : newerFirst y x = false := by
  simp only [newerFirst, decide_eq_true_eq] at h
  simp only [newerFirst, decide_eq_false_iff_not]
  omega

/-- A false `newerFirst` comparison is a `≤` on createdAt. -/
theorem newerFirst_false (a b : TokenTransaction)
    (h : newerFirst b a = false) : b.createdAt ≤ a.createdAt := by
  simp only [newerFirst, decide_eq_false_iff_not] at h
  omega

/-- Comparator `higherTotal` is asymmetric. -/
theorem higherTotal_asymm (x y : Nat × Int)
    (h : higherTotal x y = true) : higherTotal y x = false := by
  simp only [higherTotal, decide_eq_true_eq] at h
  simp only [higherTotal, decide_eq_false_iff_not]
  omega

/-- A false `higherTotal` comparison is a `≤` on totals. -/
theorem higherTotal_false (p q : Nat × Int)
    (h : higherTotal q p = false) : q.2 ≤ p.2 := by
  simp only [higherTotal, decide_eq_false_iff_not] at h
  omega

/-- Claim C8 counterexample: two rows of user 1 share one createdAt; the
code sorts by createdAt alone (no id key), so the store may keep them in
insertion order — here ids ascending, while the claim requires id descending
on the tie. -/
theorem C8_counterexample :
    getUserHistory tieLog 1 20 0 = [tieTxnA, tieTxnB] ∧
    tieTxnA.createdAt = tieTxnB.createdAt ∧
    tieTxnA.id < tieTxnB.id :=
  ⟨rfl, rfl, by decide⟩

/-- Claim C8 (amended): `getUserHistory` returns a page (`skip`, then
`limit`) of exactly the rows where the user is sender or recipient, ordered
by createdAt descending; the code requests no id tiebreak, so equal-createdAt
rows keep store order and pagination is deterministic only up to that. The
full page (skip 0, limit = number of matching rows) is a permutation of
exactly the matching rows, every page is the skip/limit window of that full
page with its exact length, the order is createdAt descending, and for every
createdAt value the tied rows appear exactly as stored. -/
theorem C8_history_page (log : List TokenTransaction) (u : Nat) :
    (getUserHistory log u (log.filter (matchesUser u)).length 0).Perm
      (log.filter (matchesUser u)) ∧
    (∀ t, t ∈ getUserHistory log u (log.filter (matchesUser u)).length 0 ↔
      (t ∈ log ∧ (t.sender = u ∨ t.recipient = u))) ∧
    List.Chain' (fun x y => y.createdAt ≤ x.createdAt)
      (getUserHistory log u (log.filter (matchesUser u)).length 0) ∧
    (∀ c : Nat,
      (getUserHistory log u (log.filter (matchesUser u)).length 0).filter
          (fun t => t.createdAt == c)
        = (log.filter (matchesUser u)).filter (fun t => t.createdAt == c)) ∧
    (∀ limit skip, getUserHistory log u limit skip =
      ((getUserHistory log u (log.filter (matchesUser u)).length 0).drop
          skip).take limit) ∧
    (∀ limit skip, (getUserHistory log u limit skip).length
      = min limit ((log.filter (matchesUser u)).length - skip)) ∧
    (∀ limit skip,
      (∀ t ∈ getUserHistory log u limit skip,
        (t.sender = u ∨ t.recipient = u) ∧ t ∈ log) ∧
      List.Chain' (fun x y => y.createdAt ≤ x.createdAt)
        (getUserHistory log u limit skip) ∧
      (getUserHistory log u limit skip).length ≤ limit) := by
  have hperm : (sortStable newerFirst (log.filter (matchesUser u))).Perm
      (log.filter (matchesUser u)) := perm_sortStable _ _
  have hlen : (sortStable newerFirst (log.filter (matchesUser u))).length
      = (log.filter (matchesUser u)).length := hperm.length_eq
  have hfull : getUserHistory log u (log.filter (matchesUser u)).length 0
      = sortStable newerFirst (log.filter (matchesUser u)) := by
    show ((sortStable newerFirst (log.filter (matchesUser u))).drop 0).take
        (log.filter (matchesUser u)).length
      = sortStable newerFirst (log.filter (matchesUser u))
    rw [List.drop_zero, ← hlen, List.take_length]
  have hchain : List.Chain' (fun x y => y.createdAt ≤ x.createdAt)
      (sortStable newerFirst (log.filter (matchesUser u))) :=
    (chain'_sortStable newerFirst newerFirst_asymm _).imp
      (fun a b h => newerFirst_false a b h)
  refine ⟨?_, ?_, ?_, ?_, ?_, ?_, ?_⟩
  · rw [hfull]
    exact hperm
  · intro t
    rw [hfull, mem_sortStable, List.mem_filter]
    simp [matchesUser]
  · rw [hfull]
    exact hchain
  · intro c
    rw [hfull]
    exact filter_key_sortStable newerFirst TokenTransaction.createdAt
      newerFirst_key newerFirst_asymm c _
  · intro limit skip
    rw [hfull]
    rfl
  · intro limit skip
    show (((sortStable newerFirst (log.filter (matchesUser u))).drop
        skip).take limit).length = _
    rw [List.length_take, List.length_drop, hlen]
  · intro limit skip
    refine ⟨?_, ?_, ?_⟩
    · intro t ht
      have h1 : t ∈ (sortStable newerFirst (log.filter (matchesUser u))).drop skip :=
        List.take_subset _ _ ht
      have h2 : t ∈ sortStable newerFirst (log.filter (matchesUser u)) :=
        List.drop_subset _ _ h1
      have h3 : t ∈ log.filter (matchesUser u) := (mem_sortStable _ _ _).mp h2
      have h4 := List.mem_filter.mp h3
      refine ⟨?_, h4.1⟩
      have h5 := h4.2
      simp only [matchesUser, Bool.or_eq_true, beq_iff_eq] at h5
      exact h5
    · exact chain'_take _ _ (chain'_drop _ _ hchain)
    · exact List.length_take_le _ _

/-- Claim C9 counterexample: two senders (ids 5 and 3) with equal SEND
totals; the pipeline sorts by total alone (no id key), so the groups may
keep first-encounter order — here id 5 before id 3, while the claim requires
ties broken by account id ascending. -/
theorem C9_counterexample :
    leaderboard lbLog "sent" 10 = [(5, 3), (3, 3)] ∧ (3 : Nat) < 5 :=
  ⟨rfl, by decide⟩

/-- Claim C9 (amended): the leaderboard of type sent (resp. received) is the
`limit`-prefix of the full ranking, where the full ranking is a permutation
of the `$group` stage output: exactly one entry per account occurring as
sender (resp. recipient) of a SEND transaction, each carrying the exact sum
of that account's SEND amounts, ordered by total descending; the code
requests no id tiebreak, so equal totals keep group-encounter order (the
`$group` stage emits groups in first-encounter order, and the sort preserves
the relative order of tied entries) rather than account id ascending. -/
theorem C9_leaderboard_totals (log : List TokenTransaction) :
    (∀ limit, leaderboard log "sent" limit =
      (leaderboard log "sent"
        (groupTotals (fun t => t.sender)
          (log.filter (fun t => t.transactionType == TransactionType.SEND))).length).take
        limit) ∧
    (leaderboard log "sent"
        (groupTotals (fun t => t.sender)
          (log.filter (fun t => t.transactionType == TransactionType.SEND))).length).Perm
      (groupTotals (fun t => t.sender)
        (log.filter (fun t => t.transactionType == TransactionType.SEND))) ∧
    (keysOf (leaderboard log "sent"
      (groupTotals (fun t => t.sender)
        (log.filter (fun t => t.transactionType == TransactionType.SEND))).length)).Nodup ∧
    (∀ a, a ∈ keysOf (leaderboard log "sent"
        (groupTotals (fun t => t.sender)
          (log.filter (fun t => t.transactionType == TransactionType.SEND))).length) ↔
      a ∈ (log.filter (fun t => t.transactionType == TransactionType.SEND)).map
        (fun t => t.sender)) ∧
    keysOf (groupTotals (fun t => t.sender)
        (log.filter (fun t => t.transactionType == TransactionType.SEND)))
      = newKeys (fun t => t.sender) []
        (log.filter (fun t => t.transactionType == TransactionType.SEND)) ∧
    (∀ s : Int, (leaderboard log "sent"
        (groupTotals (fun t => t.sender)
          (log.filter (fun t => t.transactionType == TransactionType.SEND))).length).filter
        (fun p => p.2 == s)
      = (groupTotals (fun t => t.sender)
          (log.filter (fun t => t.transactionType == TransactionType.SEND))).filter
        (fun p => p.2 == s)) ∧
    (∀ limit, leaderboard log "received" limit =
      (leaderboard log "received"
        (groupTotals (fun t => t.recipient)
          (log.filter (fun t => t.transactionType == TransactionType.SEND))).length).take
        limit) ∧
    (leaderboard log "received"
        (groupTotals (fun t => t.recipient)
          (log.filter (fun t => t.transactionType == TransactionType.SEND))).length).Perm
      (groupTotals (fun t => t.recipient)
        (log.filter (fun t => t.transactionType == TransactionType.SEND))) ∧
    (keysOf (leaderboard log "received"
      (groupTotals (fun t => t.recipient)
        (log.filter (fun t => t.transactionType == TransactionType.SEND))).length)).Nodup ∧
    (∀ a, a ∈ keysOf (leaderboard log "received"
        (groupTotals (fun t => t.recipient)
          (log.filter (fun t => t.transactionType == TransactionType.SEND))).length) ↔
      a ∈ (log.filter (fun t => t.transactionType == TransactionType.SEND)).map
        (fun t => t.recipient)) ∧
    keysOf (groupTotals (fun t => t.recipient)
        (log.filter (fun t => t.transactionType == TransactionType.SEND)))
      = newKeys (fun t => t.recipient) []
        (log.filter (fun t => t.transactionType == TransactionType.SEND)) ∧
    (∀ s : Int, (leaderboard log "received"
        (groupTotals (fun t => t.recipient)
          (log.filter (fun t => t.transactionType == TransactionType.SEND))).length).filter
        (fun p => p.2 == s)
      = (groupTotals (fun t => t.recipient)
          (log.filter (fun t => t.transactionType == TransactionType.SEND))).filter
        (fun p => p.2 == s)) ∧
    (∀ limit,
      (∀ p ∈ leaderboard log "sent" limit,
        p.2 = (((log.filter (fun t => t.transactionType == TransactionType.SEND)).filter
                  (fun t => t.sender == p.1)).map TokenTransaction.amount).sum) ∧
      (∀ p ∈ leaderboard log "received" limit,
        p.2 = (((log.filter (fun t => t.transactionType == TransactionType.SEND)).filter
                  (fun t => t.recipient == p.1)).map TokenTransaction.amount).sum) ∧
      List.Chain' (fun p q : Nat × Int => q.2 ≤ p.2) (leaderboard log "sent" limit) ∧
      List.Chain' (fun p q : Nat × Int => q.2 ≤ p.2) (leaderboard log "received" limit) ∧
      (leaderboard log "sent" limit).length ≤ limit ∧
      (leaderboard log "received" limit).length ≤ limit) := by
  have hS : ∀ limit, leaderboard log "sent" limit =
      (sortStable higherTotal
        (groupTotals (fun t => t.sender)
          (log.filter (fun t => t.transactionType == TransactionType.SEND)))).take limit := by
    intro limit
    unfold leaderboard
    rw [if_pos (by decide)]
  have hR : ∀ limit, leaderboard log "received" limit =
      (sortStable higherTotal
        (groupTotals (fun t => t.recipient)
          (log.filter (fun t => t.transactionType == TransactionType.SEND)))).take limit := by
    intro limit
    unfold leaderboard
    rw [if_neg (by decide), if_pos (by decide)]
  have hpermS := perm_sortStable higherTotal
    (groupTotals (fun t => t.sender)
      (log.filter (fun t => t.transactionType == TransactionType.SEND)))
  have hpermR := perm_sortStable higherTotal
    (groupTotals (fun t => t.recipient)
      (log.filter (fun t => t.transactionType == TransactionType.SEND)))
  have hfullS : leaderboard log "sent"
      (groupTotals (fun t => t.sender)
        (log.filter (fun t => t.transactionType == TransactionType.SEND))).length
      = sortStable higherTotal
        (groupTotals (fun t => t.sender)
          (log.filter (fun t => t.transactionType == TransactionType.SEND))) := by
    rw [hS, ← hpermS.length_eq, List.take_length]
  have hfullR : leaderboard log "received"
      (groupTotals (fun t => t.recipient)
        (log.filter (fun t => t.transactionType == TransactionType.SEND))).length
      = sortStable higherTotal
        (groupTotals (fun t => t.recipient)
          (log.filter (fun t => t.transactionType == TransactionType.SEND))) := by
    rw [hR, ← hpermR.length_eq, List.take_length]
  have hchainS : List.Chain' (fun p q : Nat × Int => q.2 ≤ p.2)
      (sortStable higherTotal
        (groupTotals (fun t => t.sender)
          (log.filter (fun t => t.transactionType == TransactionType.SEND)))) :=
    (chain'_sortStable higherTotal higherTotal_asymm _).imp
      (fun a b h => higherTotal_false a b h)
  have hchainR : List.Chain' (fun p q : Nat × Int => q.2 ≤ p.2)
      (sortStable higherTotal
        (groupTotals (fun t => t.recipient)
          (log.filter (fun t => t.transactionType == TransactionType.SEND)))) :=
    (chain'_sortStable higherTotal higherTotal_asymm _).imp
      (fun a b h => higherTotal_false a b h)
  refine ⟨?_, ?_, ?_, ?_, ?_, ?_, ?_, ?_, ?_, ?_, ?_, ?_, ?_⟩
  · intro limit
    rw [hS, hfullS]
  · rw [hfullS]
    exact hpermS
  · rw [hfullS]
    exact (List.Perm.nodup_iff (hpermS.map Prod.fst)).mpr
      (keysOf_nodup_groupTotals _ _)
  · intro a
    rw [hfullS]
    rw [show keysOf (sortStable higherTotal
        (groupTotals (fun t => t.sender)
          (log.filter (fun t => t.transactionType == TransactionType.SEND))))
      = (sortStable higherTotal
          (groupTotals (fun t => t.sender)
            (log.filter (fun t => t.transactionType == TransactionType.SEND)))).map
          Prod.fst from rfl]
    rw [(hpermS.map Prod.fst).mem_iff]
    exact mem_keysOf_groupTotals _ _ a
  · exact keysOf_groupTotals_newKeys _ _
  · intro s
    rw [hfullS]
    exact filter_key_sortStable higherTotal Prod.snd higherTotal_key
      higherTotal_asymm s _
  · intro limit
    rw [hR, hfullR]
  · rw [hfullR]
    exact hpermR
  · rw [hfullR]
    exact (List.Perm.nodup_iff (hpermR.map Prod.fst)).mpr
      (keysOf_nodup_groupTotals _ _)
  · intro a
    rw [hfullR]
    rw [show keysOf (sortStable higherTotal
        (groupTotals (fun t => t.recipient)
          (log.filter (fun t => t.transactionType == TransactionType.SEND))))
      = (sortStable higherTotal
          (groupTotals (fun t => t.recipient)
            (log.filter (fun t => t.transactionType == TransactionType.SEND)))).map
          Prod.fst from rfl]
    rw [(hpermR.map Prod.fst).mem_iff]
    exact mem_keysOf_groupTotals _ _ a
  · exact keysOf_groupTotals_newKeys _ _
  · intro s
    rw [hfullR]
    exact filter_key_sortStable higherTotal Prod.snd higherTotal_key
      higherTotal_asymm s _
  · intro limit
    refine ⟨?_, ?_, ?_, ?_, ?_, ?_⟩
    · intro p hp
      rw [hS] at hp
      have h1 := List.take_subset _ _ hp
      have h2 := (mem_sortStable _ _ _).mp h1
      exact mem_groupTotals_total _ _ p h2
    · intro p hp
      rw [hR] at hp
      have h1 := List.take_subset _ _ hp
      have h2 := (mem_sortStable _ _ _).mp h1
      exact mem_groupTotals_total _ _ p h2
    · rw [hS]
      exact chain'_take _ _ hchainS
    · rw [hR]
      exact chain'_take _ _ hchainR
    · rw [hS]
      exact List.length_take_le _ _
    · rw [hR]
      exact List.length_take_le _ _

/-- Claim C10: every successful redemption appends exactly one REDEEM row
whose sender and recipient both equal the redeeming user (part_003 lines
116-118 set both to userId), so the row passes the getUserHistory
sender-or-recipient filter for that user through either field. -/
theorem C10_redeem_row_self (st : St) (u r : Nat) (st2 : St) (nb : Int)
    (code : Option String) (t : TokenTransaction)
    (h : redeem st u r = .ok (st2, nb, code, t)) :
    st2.txns = st.txns ++ [t] ∧
    t.transactionType = .REDEEM ∧ t.sender = u ∧ t.recipient = u ∧
    matchesUser u t = true ∧ t ∈ st2.txns.filter (matchesUser u) := by
  obtain ⟨reward, user, hrw, hact, hstock, hu, hafford, ht, hnb, hcode, hst⟩ :=
    redeem_ok_inv st u r st2 nb code t h
  have h1 : st2.txns = st.txns ++ [t] := by subst hst; rfl
  have h3 : t.sender = u := by rw [ht]
  have h5 : matchesUser u t = true := by
    simp [matchesUser, h3]
  refine ⟨h1, by rw [ht], h3, by rw [ht], h5, ?_⟩
  rw [List.mem_filter]
  exact ⟨by rw [h1]; simp, h5⟩

/-- Witness for C10: the demo redemption by Alice. -/
theorem C10_witness :
    demoRedeemResult.1.txns = demoSt.txns ++ [demoRedeemResult.2.2.2] ∧
    demoRedeemResult.2.2.2.transactionType = .REDEEM ∧
    demoRedeemResult.2.2.2.sender = 1 ∧
    demoRedeemResult.2.2.2.recipient = 1 ∧
    matchesUser 1 demoRedeemResult.2.2.2 = true ∧
    demoRedeemResult.2.2.2 ∈ demoRedeemResult.1.txns.filter (matchesUser 1) :=
  C10_redeem_row_self demoSt 1 7 demoRedeemResult.1 demoRedeemResult.2.1
    demoRedeemResult.2.2.1 demoRedeemResult.2.2.2 rfl
